import Mathlib

/-!
# Horst interpreter — shallow embedding and verification

A shallow embedding of the Horst bytecode compiler/VM (Rust sources under
`src/`), together with theorems settling the frozen specification claims.

Conventions:
* Rust `Vec` becomes `List`; the value stack grows at the *end* of the list
  (Rust `push`/`pop` operate on the back), so the top of the stack is the last
  element, except where noted.
* GC handles (`GcRef<T>`) become `Nat` indices into a `List` heap; `Gc::alloc`
  appends (the free list is only fed by `Gc::free`, which none of the modeled
  code paths call).
* Rust panics and fatal runtime errors (`VM::error`, which prints a stack
  trace and exits the process) are modeled as `Option.none` results.
* `f64` is abstracted as `Int`: no claim under consideration depends on
  floating-point behaviour, only on the dispatch structure around numbers.
-/

namespace Horst

/-- Modelled from the spec (§3 "Value") and the `match` arms of `VM::run` /
`VM::call_value` in `vm.rs`: the `Value` enum of the current draft is missing
from the tree (the checked-in `value.rs` is an earlier draft without
`Closure`/`BoundMethod`).  Heap-allocated payloads (`GcRef<Class>`,
`InstanceRef`, function prototypes, native-function pointers) are represented
by `Nat` handles. -/
inductive Value where
  | number (n : Int)
  | string (s : String)
  | boolean (b : Bool)
  | nil
  | function (f : Nat)
  | nativeFunction (f : Nat)
  | classRef (c : Nat)
  | instanceRef (i : Nat)
  | closure (f : Nat) (upvalues : List Nat)
  | boundMethod (receiver : Nat) (function : Nat) (upvalues : List Nat)
  deriving DecidableEq, Repr

/-- Modelled from the spec: the `fmt::Display` implementation for `Value`
(used by `println!("{}", value)` and `b.to_string()` in `vm.rs`).  The current
draft's `value.rs` is missing; renderings of the primitive variants follow the
earlier draft's `Display` impl, heap-backed variants get fixed descriptor
strings (no claim depends on their exact text). -/
def valueDisplay : Value → String
  | .number n => toString n
  | .string s => s
  | .boolean b => toString b
  | .nil => "nil"
  | .function _ => "<function>"
  | .nativeFunction _ => "<native fn>"
  | .classRef _ => "<class>"
  | .instanceRef _ => "<class instance>"
  | .closure _ _ => "<closure>"
  | .boundMethod _ _ _ => "<bound method>"

/-- `true` exactly on `Value::String(_)`. -/
def Value.isString : Value → Bool
  | .string _ => true
  | _ => false

/-- `true` exactly on `Value::Number(_)`. -/
def Value.isNumber : Value → Bool
  | .number _ => true
  | _ => false

/-- `Instruction::Add` dispatch (`vm.rs`, `VM::run`, `Instruction::Add` arm),
after the two pops: `a` is the second-from-top operand, `b` the top one.
The Rust match arms, in order: `(Number, Number)` pushes the sum,
`(String, String)` pushes the concatenation, `(String a, b)` pushes
`a + b.to_string()`, and everything else is a runtime error (`none`). -/
def addValues : Value → Value → Option Value
  | .number a, .number b => some (.number (a + b))
  | .string a, .string b => some (.string (a ++ b))
  | .string a, b => some (.string (a ++ valueDisplay b))
  | _, _ => none

/-- The full effect of `Instruction::Add` on the value stack (bottom-first
list, top of the stack at the end): pop `b`, pop `a`, push the dispatch
result.  `none` models the runtime error (and the `unwrap` panic on a short
stack). -/
def runAdd (stack : List Value) : Option (List Value) := do
  let b ← stack.getLast?
  let s1 := stack.dropLast
  let a ← s1.getLast?
  let s2 := s1.dropLast
  let v ← addValues a b
  return s2 ++ [v]

/-- `FunctionUpvalue` (`vm.rs`): static capture descriptor stored in a
function prototype. -/
structure FunctionUpvalue where
  index : Nat
  is_local : Bool
  deriving DecidableEq, Repr

/-- `Compiler::add_upvalue` (`compiler.rs`): scan the function's upvalue table
for an entry with the same `(index, is_local)` pair and return its position;
otherwise append a fresh entry and return its (last) position.  Returns the
updated table and the chosen upvalue slot. -/
def addUpvalue (ups : List FunctionUpvalue) (index : Nat) (is_local : Bool) :
    List FunctionUpvalue × Nat :=
  match ups.findIdx? (fun u => u.index == index && u.is_local == is_local) with
  | some i => (ups, i)
  | none => (ups ++ [⟨index, is_local⟩], ups.length)

/-- The deduplication key of an upvalue-table entry. -/
def upvalueKey (u : FunctionUpvalue) : Nat × Bool := (u.index, u.is_local)

/-- `Class` (`class.rs` draft used by `vm.rs`): name and method table
(`HashMap<String, Value>` modeled as an association list). -/
structure ClassObj where
  name : String
  methods : List (String × Value)
  deriving Repr

/-- `Instance` (`instance.rs` draft used by `vm.rs`): class handle and field
table. -/
structure InstanceObj where
  cls : Nat
  fields : List (String × Value)
  deriving Repr

/-- `HashMap::contains_key` on an association-list-modeled method table. -/
def containsKey (m : List (String × Value)) (k : String) : Bool :=
  m.any (fun p => p.1 == k)

/-- `Instruction::Print` (`vm.rs`, `VM::run`): the popped value `v` is
dispatched: an `Instance` whose class has a `"toString"` method triggers a
nested interpreter run (abstracted by `nestedResult`, the value that run
returns) whose result is printed; an `Instance` without one falls through the
inner `if` with no `else` — nothing is printed; any other value is printed
directly.  Returns the list of lines written to stdout (`println!` writes one
line); `none` models the panic on a dangling handle. -/
def printValue (classes : List ClassObj) (instances : List InstanceObj)
    (nestedResult : Value) : Value → Option (List String)
  | .instanceRef i =>
    match instances[i]? with
    | some inst =>
      match classes[inst.cls]? with
      | some c =>
        if containsKey c.methods "toString" then some [valueDisplay nestedResult]
        else some []
      | none => none
    | none => none
  | v => some [valueDisplay v]

/-- The full effect of `Instruction::Print` on the value stack (bottom-first
list, top at the end): the value is popped in every branch (in the nested-run
branch the stack is restored by the recorded-length `truncate`), and the
produced stdout lines are returned. -/
def runPrint (classes : List ClassObj) (instances : List InstanceObj)
    (nestedResult : Value) (stack : List Value) : Option (List String × List Value) := do
  let v ← stack.getLast?
  let out ← printValue classes instances nestedResult v
  return (out, stack.dropLast)

/-- `UpvalueRegistry` (`vm.rs`): either open over a value-stack slot or closed
over a copied value. -/
inductive UpvalueRegistry where
  | Open (slot : Nat)
  | Closed (value : Value)
  deriving DecidableEq, Repr

/-- The predicate the Rust closure inside `VM::capture_upvalue` actually
computes: `matches!(self.gc.deref(upvalue), UpvalueRegistry::Open(index))`.
In a Rust pattern the identifier `index` is a *fresh binding* (it shadows the
`index` parameter), so the predicate holds for every open registry, whatever
slot it is open over.  A dangling handle makes `Gc::deref` panic; the modeled
predicate is only consulted on live handles. -/
def isOpenRegistry (heap : List UpvalueRegistry) (h : Nat) : Bool :=
  match heap[h]? with
  | some (.Open _) => true
  | _ => false

/-- The slice of VM state that `capture_upvalue` touches: the GC heap of
upvalue registries (handle = index, `Gc::alloc` appends) and the
`open_upvalues` handle list. -/
structure UpvalueState where
  heap : List UpvalueRegistry
  openUpvalues : List Nat
  deriving DecidableEq, Repr

/-- `VM::capture_upvalue` (`vm.rs`): return the first handle in
`open_upvalues` whose registry satisfies the `matches!` predicate above;
otherwise allocate a fresh `Open(index)` registry, push its handle onto
`open_upvalues`, and return it. -/
def captureUpvalue (st : UpvalueState) (index : Nat) : Nat × UpvalueState :=
  match st.openUpvalues.find? (fun h => isOpenRegistry st.heap h) with
  | some h => (h, st)
  | none =>
    let h := st.heap.length
    (h, ⟨st.heap ++ [.Open index], st.openUpvalues ++ [h]⟩)

/-- The slot a handle is open over (junk value `0` off the live range; used
only in statements about handles known to be open). -/
def slotOf (heap : List UpvalueRegistry) (h : Nat) : Nat :=
  match heap[h]? with
  | some (.Open s) => s
  | _ => 0

/-- The `while let` loop of `VM::close_upvalues` (`vm.rs`), processing the
`open_upvalues` vector from its back; the argument list here is
`open_upvalues.reverse`, so its head is the vector's last element.  Each step
inspects the last registry: a closed registry panics (`none`), an open one
with `slot ≤ index` stops the loop, otherwise the handle is popped and the
registry rewritten to `Closed(stack[slot])` (`none` on an out-of-range slot,
where Rust's `self.stack[slot]` would panic). -/
def closeUpvaluesGo (stack : List Value) (index : Nat) :
    List UpvalueRegistry → List Nat → Option (List UpvalueRegistry × List Nat)
  | heap, [] => some (heap, [])
  | heap, h :: rest =>
    match heap[h]? with
    | some (.Open slot) =>
      if slot ≤ index then some (heap, h :: rest)
      else
        match stack[slot]? with
        | some v => closeUpvaluesGo stack index (heap.set h (.Closed v)) rest
        | none => none
    | _ => none

/-- `VM::close_upvalues` (`vm.rs`): run the loop over the back of
`open_upvalues`, returning the updated heap and the remaining (still open)
handle list in its original orientation. -/
def closeUpvalues (stack : List Value) (heap : List UpvalueRegistry)
    (openUpvalues : List Nat) (index : Nat) :
    Option (List UpvalueRegistry × List Nat) :=
  (closeUpvaluesGo stack index heap openUpvalues.reverse).map
    (fun p => (p.1, p.2.reverse))

/-- `LineRecord` (`frame.rs`): one run of the run-length line table. -/
structure LineRecord where
  line : Nat
  count : Nat
  deriving DecidableEq, Repr

/-- Modelled from the spec (§4.3 opcode table) and the dispatch `match` of
`VM::run`: the `Instruction` enum of the current draft is missing from the
tree (the checked-in `instruction.rs` is an earlier draft without
`Closure`/`CloseUpvalue`/`ImportModule`/…). -/
inductive Instruction where
  | Constant (index : Nat)
  | Nil
  | True
  | False
  | Pop
  | GetGlobal (index : Nat)
  | DefineGlobal (index : Nat)
  | SetGlobal (index : Nat)
  | GetLocal (index : Nat)
  | SetLocal (index : Nat)
  | GetUpvalue (index : Nat)
  | SetUpvalue (index : Nat)
  | GetProperty (index : Nat)
  | SetProperty (index : Nat)
  | GetSuper (index : Nat)
  | Equal
  | Greater
  | Less
  | Subtract
  | Multiply
  | Divide
  | Modulo
  | Add
  | Not
  | Negate
  | Print
  | Jump (offset : Nat)
  | JumpIfFalse (offset : Nat)
  | Loop (offset : Nat)
  | Call (argCount : Nat)
  | Invoke (index argCount : Nat)
  | SuperInvoke (index argCount : Nat)
  | Closure (index : Nat)
  | CloseUpvalue
  | Return
  | Class (index : Nat)
  | Inherit
  | ImportModule (index : Nat)
  | ImportVariable (index : Nat)
  | Method (index : Nat)
  deriving DecidableEq, Repr

/-- `Chunk` (`frame.rs`): instruction list, constant pool, run-length line
table. -/
structure Chunk where
  name : String
  constants : List Value
  code : List Instruction
  lines : List LineRecord
  deriving DecidableEq, Repr

/-- `Chunk::new` (`frame.rs`). -/
def Chunk.new (name : String) : Chunk :=
  ⟨name, [], [], []⟩

/-- `Chunk::write` (`frame.rs`): push the instruction, then update the line
table — an empty table or a strictly larger line pushes a fresh
`{line, count: 1}` run, the same line increments the last run's count, and a
smaller line hits `unreachable!("Line number stack should not go backward")`
(`none`).  Returns the updated chunk and the new instruction's index. -/
def Chunk.write (c : Chunk) (op : Instruction) (line : Nat) :
    Option (Chunk × Nat) :=
  let code := c.code ++ [op]
  match c.lines.getLast? with
  | none => some ({ c with code := code, lines := c.lines ++ [⟨line, 1⟩] }, code.length - 1)
  | some r =>
    if r.line < line then
      some ({ c with code := code, lines := c.lines ++ [⟨line, 1⟩] }, code.length - 1)
    else if r.line = line then
      some ({ c with code := code, lines := c.lines.dropLast ++ [⟨r.line, r.count + 1⟩] },
            code.length - 1)
    else none

/-- A sequence of `Chunk::write` calls, as in the compiler's emit loop;
`none` once any single write panics. -/
def writeSeq (c : Chunk) : List (Instruction × Nat) → Option Chunk
  | [] => some c
  | (op, line) :: rest =>
    match c.write op line with
    | none => none
    | some (c', _) => writeSeq c' rest

/-- The double loop of `Chunk::find_line` (`frame.rs`).  Arguments mirror the
Rust mutable state: `idx` is `idx_counter` at the record's start, `lineNum`
and `isFirst` are the values carried in from the previous record.  The record
containing `target` (that is, `idx ≤ target < idx + count`) breaks the outer
loop with its line, `is_first` true exactly when `target` is the record's
first instruction; a record passed over leaves `line_num = line` and
`is_first = (count == 0)`. -/
def findLineGo (target : Nat) : List LineRecord → Nat → Nat → Bool → Nat × Bool
  | [], _, lineNum, isFirst => (lineNum, isFirst)
  | r :: rest, idx, _, _ =>
    if idx ≤ target ∧ target < idx + r.count then (r.line, decide (target = idx))
    else findLineGo target rest (idx + r.count) r.line (decide (r.count = 0))

/-- `Chunk::find_line` (`frame.rs`): `(line, is_first)` for an instruction
index; `(1, true)` on an empty table. -/
def Chunk.findLine (c : Chunk) (instructionIndex : Nat) : Nat × Bool :=
  findLineGo instructionIndex c.lines 0 1 true

/-- The multiset of source lines the run-length table covers, one entry per
instruction, in instruction order. -/
def lineExpansion (lines : List LineRecord) : List Nat :=
  lines.flatMap (fun r => List.replicate r.count r.line)

/-- `Function` (`function.rs`): compiled function prototype.  `module` is a
`GcRef<Module>` handle. -/
structure Function where
  name : String
  arity : Nat
  chunk : Chunk
  upvalues : List FunctionUpvalue
  module : Nat
  deriving DecidableEq, Repr

/-- `CallFrame` (`frame.rs`): activation record. -/
structure CallFrame where
  function : Function
  ip : Nat
  base : Nat
  upvalues : List Nat
  deriving DecidableEq, Repr

/-- The slice of VM state that `Instruction::Return` touches. The value stack
is a bottom-first list (Rust `Vec`; push/pop at the end). -/
structure VMState where
  stack : List Value
  frames : List CallFrame
  heap : List UpvalueRegistry
  openUpvalues : List Nat
  deriving DecidableEq, Repr

/-- Outcome of executing `Instruction::Return`: either the interpreter loop
returns the result (last frame popped), or execution continues in the caller's
frame. -/
inductive ReturnOutcome where
  | halt (result : Value) (st : VMState)
  | running (st : VMState)
  deriving DecidableEq, Repr

/-- `Instruction::Return` (`vm.rs`, `VM::run`): read the current frame's
`base`; pop the return value; `close_upvalues(base)`; pop the frame; if no
frames remain, pop once more and return the result from the interpreter;
otherwise truncate the value stack to `base` and push the result.  `none`
models the `unwrap` panics (no frame / empty stack) and the panics inside
`close_upvalues`. -/
def runReturn (st : VMState) : Option ReturnOutcome := do
  let frame ← st.frames.getLast?
  let base := frame.base
  let result ← st.stack.getLast?
  let stack1 := st.stack.dropLast
  let (heap', opens') ← closeUpvalues stack1 st.heap st.openUpvalues base
  let frames' := st.frames.dropLast
  if frames'.isEmpty then
    return ReturnOutcome.halt result ⟨stack1.dropLast, frames', heap', opens'⟩
  else
    return ReturnOutcome.running ⟨stack1.take base ++ [result], frames', heap', opens'⟩

/-- `Module` (`vm.rs`): optional canonical name plus global-variable table
(the Rust field is called `variables`, a reserved word here). -/
structure ModuleObj where
  name : Option String
  vars : List (String × Value)
  deriving DecidableEq, Repr

/-- `Module::name` (`vm.rs`): the module's own name, or the file-name
component of the VM's `base` path for the unnamed top-level module
(`Path::new(base).file_name()`, modeled as the last `/`-separated component;
the Rust `unwrap` panic on a component-less path is out of the modeled
range). -/
def moduleDisplayName (m : ModuleObj) (base : String) : String :=
  m.name.getD ((base.splitOn "/").getLastD "")

/-- One line of `VM::error`'s stack trace:
`[line {line}] in {function}() {module}`. -/
def frameTraceLine (base : String) (m : ModuleObj) (f : CallFrame) : String :=
  let line := (f.function.chunk.findLine f.ip).1
  let fname := f.function.name
  let modName := moduleDisplayName m base
  s!"[line {line}] in {fname}() {modName}"

/-- The trace loop of `VM::error` (`vm.rs`): one line per frame, the frame
list already reversed (innermost first).  `none` models the panic on a
dangling module handle. -/
def traceLines (modules : List ModuleObj) (base : String) :
    List CallFrame → Option (List String)
  | [] => some []
  | f :: rest =>
    match modules[f.function.module]? with
    | none => none
    | some m => (traceLines modules base rest).map (frameTraceLine base m f :: ·)

/-- `VM::error` (`vm.rs`): print one trace line per frame, innermost first,
then `Error: {message}`, and terminate the process with exit status 1
(`std::process::exit(1)`).  Result: the stderr lines and the exit code. -/
def vmError (modules : List ModuleObj) (base : String) (frames : List CallFrame)
    (message : String) : Option (List String × Nat) :=
  (traceLines modules base frames.reverse).map
    (fun ls => (ls ++ ["Error: " ++ message], 1))

/-- The driver `main` (`bin/main.rs`) as a function of its environment:
`argc` is `env::args().collect().len()` (program name included),
`fileName` is `Path::new(file).file_name()` (`None` for paths such as `..`,
`/` or the empty string, where the driver's `haupt.horst` recommendation
check calls `unwrap` and panics — modeled as the `none` result; a Rust panic
aborts the process abnormally, with status 101, not through
`std::process::exit`), `readResult` is `std::fs::read_to_string(file)`,
`compiled` is the `VM::compile` outcome, and `runOk` tells whether
`VM::interpret` ran to completion rather than aborting through `VM::error`
(which exits with status 1). -/
def mainRun (argc : Nat) (fileName : Option String) (readResult : Option String)
    (compiled : Option Function) (runOk : Bool) : Option Nat :=
  if argc ≠ 2 then some 64
  else
    match fileName with
    | none => none
    | some _ =>
      match readResult with
      | none => some 66
      | some _ =>
        match compiled with
        | none => some 65
        | some _ => if runOk then some 0 else some 1

/-- `Path::with_file_name` on `/`-separated component lists: drop the final
component (the file name) and push `name` — exactly what
`Path::new(p).with_file_name(name)` does for the non-root, file-named paths
`VM::import_module` builds. -/
def withFileName (p : List String) (name : String) : List String :=
  p.dropLast ++ [name]

/-- The path `VM::import_module` (`vm.rs`) passes to
`std::fs::read_to_string`: the importing module's path (its canonical name,
or the VM's `base` for the unnamed top-level module) with its file-name
component replaced by the import spec — no extension is appended. -/
def importReadPath (importerPath : List String) (name : String) : List String :=
  withFileName importerPath name

/-- `read_module` (`module.rs`): the path this *unused* helper would read —
`format!("{}.horst", name)`.  It and `resolve_module` are dead code: no
caller exists anywhere in the tree; the live import path is
`VM::import_module`. -/
def readModulePath (name : String) : String :=
  name ++ ".horst"

/-- The observable effects of one `VM::import_module` call. -/
inductive ImportEvent where
  | readFile (path : List String)
  | compileSource (key : String)
  | runTopLevel (key : String)
  deriving DecidableEq, Repr

/-- The module-table half of `VM::compile` (`vm.rs`): if a module with this
key is already in `self.modules` it is reused, otherwise a fresh `Module` is
allocated and inserted.  Returns the updated key table and whether a fresh
module was allocated.  In *both* cases `VM::compile` then runs the parser
over the source. -/
def vmCompileTable (modules : List (Option String)) (key : Option String) :
    List (Option String) × Bool :=
  if key ∈ modules then (modules, false) else (modules ++ [key], true)

/-- `VM::import_module` (`vm.rs`): build the read path with `with_file_name`,
read the source (`fs` is the filesystem oracle; a failed read is the runtime
error `Could not read file`, `none`), then *unconditionally* call
`VM::compile` (module-table lookup-or-insert followed by a full parser run
over the source) and `VM::interpret` (which executes the module's top-level
code on a saved/restored frame-and-stack pair).  `key` stands for the
canonical key `path_relative_from` computes for the read path; only its
membership in the module table matters to the claims under study.  Returns
the emitted events, the updated module-key table, and whether a fresh module
object was allocated.  (A compile error likewise aborts with a runtime error;
abstracting it away only removes failure cases, not cached-reuse cases.) -/
def importModule (fs : List String → Option String)
    (modules : List (Option String)) (importerPath : List String)
    (name : String) (key : String) :
    Option (List ImportEvent × List (Option String) × Bool) := do
  let file := importReadPath importerPath name
  let _source ← fs file
  let (modules', fresh) := vmCompileTable modules (some key)
  return ([ImportEvent.readFile file, ImportEvent.compileSource key,
           ImportEvent.runTopLevel key], modules', fresh)

/-! ## Helper lemmas -/

/-- Evaluating `runAdd` on a stack with at least two values. -/
lemma runAdd_append (st : List Value) (a b : Value) :
    runAdd (st ++ [a, b]) = (addValues a b).map (fun v => st ++ [v]) := by
  have h : st ++ [a, b] = (st ++ [a]) ++ [b] := by simp
  rw [h]
  simp only [runAdd, List.getLast?_concat, List.dropLast_concat]
  cases hab : addValues a b <;> simp [hab]

/-- Evaluating `runPrint` on a nonempty stack. -/
lemma runPrint_append (classes : List ClassObj) (instances : List InstanceObj)
    (nested : Value) (st : List Value) (v : Value) :
    runPrint classes instances nested (st ++ [v]) =
      (printValue classes instances nested v).map (·, st) := by
  simp only [runPrint, List.getLast?_concat, List.dropLast_concat]
  cases hpv : printValue classes instances nested v <;> simp [hpv]

/-- `VM::error` produces one trace line per frame. -/
lemma traceLines_length (modules : List ModuleObj) (base : String) :
    ∀ (frames : List CallFrame) (ls : List String),
      traceLines modules base frames = some ls → ls.length = frames.length := by
  intro frames
  induction frames with
  | nil =>
    intro ls h
    cases h
    rfl
  | cons f rest ih =>
    intro ls h
    unfold traceLines at h
    cases hm : modules[f.function.module]? with
    | none => rw [hm] at h; cases h
    | some m =>
      rw [hm] at h
      cases hr : traceLines modules base rest with
      | none => rw [hr] at h; cases h
      | some ls' =>
        rw [hr] at h
        simp only [Option.map_some'] at h
        cases h
        simp [ih ls' hr]

/-- The `close_upvalues` loop on the reversed open-upvalue list: with live,
distinct handles whose slots are nonincreasing along the reversed list, it
closes exactly the handles with slot above the threshold. -/
lemma closeGo_spec (stack : List Value) (T : Nat) :
    ∀ (rev : List Nat) (heap : List UpvalueRegistry),
      (∀ h ∈ rev, ∃ s, heap[h]? = some (.Open s) ∧ s < stack.length) →
      rev.Nodup →
      rev.Pairwise (fun a b => slotOf heap b ≤ slotOf heap a) →
      ∃ heap',
        closeUpvaluesGo stack T heap rev =
          some (heap', rev.filter (fun h => slotOf heap h ≤ T)) ∧
        (∀ h ∈ rev, T < slotOf heap h →
            heap'[h]? = some (.Closed (stack.getD (slotOf heap h) Value.nil))) ∧
        (∀ h' : Nat, (h' ∈ rev → slotOf heap h' ≤ T) → heap'[h']? = heap[h']?) := by
  intro rev
  induction rev with
  | nil =>
    intro heap _ _ _
    exact ⟨heap, by simp [closeUpvaluesGo], by simp, fun _ _ => rfl⟩
  | cons h rest ih =>
    intro heap hvalid hnd hpw
    obtain ⟨s, hopen, hs⟩ := hvalid h (List.mem_cons_self _ _)
    have hslot : slotOf heap h = s := by simp [slotOf, hopen]
    by_cases hle : s ≤ T
    · refine ⟨heap, ?_, ?_, fun _ _ => rfl⟩
      · have hfilter : (h :: rest).filter (fun x => decide (slotOf heap x ≤ T)) = h :: rest := by
          rw [List.filter_eq_self]
          intro a ha
          rcases List.mem_cons.mp ha with rfl | ha
          · simpa [hslot]
          · have := (List.pairwise_cons.mp hpw).1 a ha
            simp only [decide_eq_true_eq]
            omega
        simpa [closeUpvaluesGo, hopen, hle] using
          congrArg (fun l => some (heap, l)) hfilter.symm
      · intro x hx hlt
        rcases List.mem_cons.mp hx with rfl | hx
        · omega
        · have := (List.pairwise_cons.mp hpw).1 x hx
          omega
    · push_neg at hle
      have hlen : h < heap.length := by
        by_contra hcon
        push_neg at hcon
        rw [List.getElem?_eq_none hcon] at hopen
        exact Option.noConfusion hopen
      have hstack : stack[s]? = some (stack.getD s Value.nil) := by
        rw [List.getD_eq_getElem?_getD, List.getElem?_eq_getElem hs]
        rfl
      set v := stack.getD s Value.nil with hv
      set heap₁ := heap.set h (.Closed v) with hheap₁
      have hnotmem : h ∉ rest := (List.nodup_cons.mp hnd).1
      have htrans : ∀ x ∈ rest, slotOf heap₁ x = slotOf heap x := by
        intro x hx
        have hne : h ≠ x := fun hcon => hnotmem (hcon ▸ hx)
        simp [slotOf, hheap₁, List.getElem?_set_ne hne]
      have hget₁ : ∀ x ∈ rest, heap₁[x]? = heap[x]? := by
        intro x hx
        have hne : h ≠ x := fun hcon => hnotmem (hcon ▸ hx)
        exact List.getElem?_set_ne hne
      obtain ⟨heap₂, heq, hclosed, hunch⟩ := ih heap₁
        (fun x hx => by rw [hget₁ x hx]; exact hvalid x (List.mem_cons_of_mem _ hx))
        (List.nodup_cons.mp hnd).2
        (((List.pairwise_cons.mp hpw).2).imp_of_mem
          (fun ha hb hr => by rw [htrans _ ha, htrans _ hb]; exact hr))
      refine ⟨heap₂, ?_, ?_, ?_⟩
      · have hstep : closeUpvaluesGo stack T heap (h :: rest) =
            closeUpvaluesGo stack T heap₁ rest := by
          simp [closeUpvaluesGo, hopen, Nat.not_le.mpr hle, hstack, hheap₁]
        rw [hstep, heq]
        have hfeq : rest.filter (fun x => decide (slotOf heap₁ x ≤ T)) =
            rest.filter (fun x => decide (slotOf heap x ≤ T)) :=
          List.filter_congr (fun x hx => by rw [htrans x hx])
        have hhd : (decide (slotOf heap h ≤ T)) = false := by
          simp [hslot]; omega
        simp [List.filter_cons, hhd, hfeq]
      · intro x hx hlt
        rcases List.mem_cons.mp hx with rfl | hx
        · rw [hslot, ← hv]
          have : heap₂[x]? = heap₁[x]? := hunch x (fun hcon => absurd hcon hnotmem)
          rw [this, hheap₁, List.getElem?_set_self hlen]
        · rw [← htrans x hx]
          exact hclosed x hx (by rw [htrans x hx]; exact hlt)
      · intro x hx
        by_cases hxh : x = h
        · subst hxh
          exact absurd (hx (List.mem_cons_self _ _)) (by omega)
        · have h1 : heap₂[x]? = heap₁[x]? := by
            apply hunch
            intro hxr
            rw [htrans x hxr]
            exact hx (List.mem_cons_of_mem _ hxr)
          rw [h1, hheap₁, List.getElem?_set_ne (fun hcon => hxh hcon.symm)]

/-- `VM::close_upvalues` on an open-upvalue list whose slots are
nondecreasing towards the back (the orientation the VM's pushes maintain):
exactly the registries with slot above the threshold are closed — each
rewritten to `Closed(stack[slot])` and removed — and every other registry,
in particular every one with slot at or below the threshold, is untouched. -/
lemma closeUpvalues_spec (stack : List Value) (heap : List UpvalueRegistry)
    (opens : List Nat) (T : Nat)
    (hvalid : ∀ h ∈ opens, ∃ s, heap[h]? = some (.Open s) ∧ s < stack.length)
    (hnd : opens.Nodup)
    (hsorted : opens.Pairwise (fun a b => slotOf heap a ≤ slotOf heap b)) :
    ∃ heap',
      closeUpvalues stack heap opens T =
        some (heap', opens.filter (fun h => slotOf heap h ≤ T)) ∧
      (∀ h ∈ opens, T < slotOf heap h →
          heap'[h]? = some (.Closed (stack.getD (slotOf heap h) Value.nil))) ∧
      (∀ h' : Nat, (h' ∈ opens → slotOf heap h' ≤ T) → heap'[h']? = heap[h']?) := by
  obtain ⟨heap', heq, hclosed, hunch⟩ := closeGo_spec stack T opens.reverse heap
    (fun h hh => hvalid h (List.mem_reverse.mp hh))
    (List.nodup_reverse.mpr hnd)
    (List.pairwise_reverse.mpr hsorted)
  refine ⟨heap', ?_, fun h hh => hclosed h (List.mem_reverse.mpr hh),
    fun h' hh' => hunch h' (fun hm => hh' (List.mem_reverse.mp hm))⟩
  unfold closeUpvalues
  rw [heq]
  simp [List.filter_reverse]

/-- Run-length expansion distributes over append. -/
lemma lineExpansion_append (a b : List LineRecord) :
    lineExpansion (a ++ b) = lineExpansion a ++ lineExpansion b :=
  List.flatMap_append a b _

/-- `find_line`'s loop returns the expansion entry at the queried index. -/
lemma findLineGo_spec (target : Nat) :
    ∀ (rs : List LineRecord) (idx ln : Nat) (fs : Bool),
      idx ≤ target → target < idx + (lineExpansion rs).length →
      (findLineGo target rs idx ln fs).1 = (lineExpansion rs).getD (target - idx) 0 := by
  intro rs
  induction rs with
  | nil =>
    intro idx ln fs h1 h2
    simp [lineExpansion] at h2
    omega
  | cons r rest ih =>
    intro idx ln fs h1 h2
    have hexp : lineExpansion (r :: rest)
        = List.replicate r.count r.line ++ lineExpansion rest := by
      simp [lineExpansion]
    by_cases hc : idx ≤ target ∧ target < idx + r.count
    · have hlt : target - idx < r.count := by omega
      rw [findLineGo, if_pos hc, hexp]
      rw [List.getD_eq_getElem?_getD,
        List.getElem?_append_left (by simpa using hlt), List.getElem?_replicate,
        if_pos hlt]
      rfl
    · have hge : idx + r.count ≤ target := by omega
      rw [findLineGo, if_neg hc, hexp]
      have h2' : target < (idx + r.count) + (lineExpansion rest).length := by
        rw [hexp] at h2
        simp at h2
        omega
      rw [ih (idx + r.count) r.line (decide (r.count = 0)) hge h2']
      rw [List.getD_eq_getElem?_getD, List.getD_eq_getElem?_getD,
        List.getElem?_append_right (by simp; omega)]
      congr 2
      simp
      omega

/-- A single `Chunk::write` at a line not smaller than the last run's line
succeeds and extends the expansion by that line. -/
lemma write_spec (c : Chunk) (op : Instruction) (l : Nat)
    (h : ∀ r, c.lines.getLast? = some r → r.line ≤ l) :
    ∃ c' n, c.write op l = some (c', n) ∧
      c'.code = c.code ++ [op] ∧
      lineExpansion c'.lines = lineExpansion c.lines ++ [l] ∧
      (∀ r', c'.lines.getLast? = some r' → r'.line = l) := by
  cases hlast : c.lines.getLast? with
  | none =>
    have hnil : c.lines = [] := by
      cases hc : c.lines with
      | nil => rfl
      | cons x xs => rw [hc, List.getLast?_cons] at hlast; simp at hlast
    refine ⟨{ c with code := c.code ++ [op], lines := c.lines ++ [⟨l, 1⟩] },
      (c.code ++ [op]).length - 1, ?_, rfl, ?_, ?_⟩
    · simp [Chunk.write, hlast]
    · simp [hnil, lineExpansion]
    · intro r' hr'
      simp only [hnil, List.nil_append, List.getLast?_singleton] at hr'
      cases hr'
      rfl
  | some r =>
    have hle : r.line ≤ l := h r hlast
    by_cases hlt : r.line < l
    · refine ⟨{ c with code := c.code ++ [op], lines := c.lines ++ [⟨l, 1⟩] },
        (c.code ++ [op]).length - 1, ?_, rfl, ?_, ?_⟩
      · simp [Chunk.write, hlast, if_pos hlt]
      · rw [lineExpansion_append]
        simp [lineExpansion]
      · intro r' hr'
        rw [List.getLast?_concat] at hr'
        cases hr'
        rfl
    · have heq : r.line = l := by omega
      obtain ⟨ys, hys⟩ := List.getLast?_eq_some_iff.mp hlast
      refine ⟨{ c with code := c.code ++ [op], lines := c.lines.dropLast ++ [⟨r.line, r.count + 1⟩] }, (c.code ++ [op]).length - 1, ?_, rfl, ?_, ?_⟩
      · simp [Chunk.write, hlast, if_neg hlt, if_pos heq]
      · rw [hys, List.dropLast_concat, lineExpansion_append, lineExpansion_append]
        simp [lineExpansion, List.replicate_succ', heq, List.append_assoc]
      · intro r' hr'
        rw [List.getLast?_concat] at hr'
        cases hr'
        exact heq

/-- A nondecreasing sequence of writes (starting from a chunk whose last run
does not exceed the first written line) succeeds and appends its lines to the
expansion. -/
lemma writeSeq_spec :
    ∀ (ops : List (Instruction × Nat)) (c : Chunk),
      List.Chain' (· ≤ ·) (ops.map Prod.snd) →
      (∀ r, c.lines.getLast? = some r →
        ∀ l, (ops.map Prod.snd).head? = some l → r.line ≤ l) →
      ∃ c', writeSeq c ops = some c' ∧
        c'.code = c.code ++ ops.map Prod.fst ∧
        lineExpansion c'.lines = lineExpansion c.lines ++ ops.map Prod.snd := by
  intro ops
  induction ops with
  | nil =>
    intro c _ _
    exact ⟨c, rfl, by simp, by simp⟩
  | cons p rest ih =>
    intro c hchain hfit
    obtain ⟨op, l⟩ := p
    obtain ⟨c₁, n, hw, hcode, hexp, hlast⟩ := write_spec c op l
      (fun r hr => hfit r hr l (by simp))
    have hchain' : List.Chain' (· ≤ ·) (rest.map Prod.snd) := by
      have := hchain
      simp only [List.map_cons] at this
      exact this.tail
    obtain ⟨c₂, hws, hcode₂, hexp₂⟩ := ih c₁ hchain'
      (by
        intro r hr l' hl'
        have hr' : r.line = l := hlast r hr
        have : l ≤ l' := by
          simp only [List.map_cons] at hchain
          cases hrest : rest.map Prod.snd with
          | nil => rw [hrest] at hl'; cases hl'
          | cons x xs =>
            rw [hrest] at hl' hchain
            rw [List.chain'_cons] at hchain
            cases hl'
            exact hchain.1
        omega)
    refine ⟨c₂, ?_, ?_, ?_⟩
    · simp [writeSeq, hw, hws]
    · rw [hcode₂, hcode]
      simp
    · rw [hexp₂, hexp]
      simp

/-! ## Claim theorems -/

/-- C1 (counterexample): the claim says that a `Number` on the left and a
`String` on the right also concatenates; on the code, `Add` with
second-from-top `Number 1` and top `String "x"` falls through to the error
arm (`Operands must be two numbers or two strings.`) instead of pushing the
predicted concatenation. -/
theorem C1_counterexample :
    runAdd [Value.number 1, Value.string "x"] = none ∧
    runAdd [Value.number 1, Value.string "x"]
      ≠ some [Value.string (valueDisplay (Value.number 1) ++ "x")] := by
  constructor
  · rfl
  · have h0 : runAdd [Value.number 1, Value.string "x"] = none := rfl
    rw [h0]
    exact Option.noConfusion

/-- C1 (amended): popping operands `a` (second-from-top) and `b` (top), two
`Number`s push their sum; a `String` on the *left* pushes the concatenation
with the right operand stringified (covering `String ++ String`); in every
other case — in particular a `Number` on the left with a `String` on the
right — execution fails with a runtime error. -/
theorem C1_add_dispatch (a b : Value) (st : List Value) :
    (∀ x y, a = Value.number x → b = Value.number y →
        runAdd (st ++ [a, b]) = some (st ++ [Value.number (x + y)])) ∧
    (∀ s, a = Value.string s →
        runAdd (st ++ [a, b]) = some (st ++ [Value.string (s ++ valueDisplay b)])) ∧
    (a.isString = false → (a.isNumber = false ∨ b.isNumber = false) →
        runAdd (st ++ [a, b]) = none) := by
  refine ⟨?_, ?_, ?_⟩
  · rintro x y rfl rfl
    simp [runAdd_append, addValues]
  · rintro s rfl
    cases b <;> simp [runAdd_append, addValues, valueDisplay]
  · intro hs hn
    rw [runAdd_append]
    cases a <;> cases b <;> simp_all [addValues, Value.isString, Value.isNumber]

/-- Witness for C1_add_dispatch at concrete operands. -/
theorem C1_add_dispatch_witness :
    runAdd [Value.nil, Value.number 1, Value.number 2]
      = some [Value.nil, Value.number (1 + 2)] :=
  (C1_add_dispatch (Value.number 1) (Value.number 2) [Value.nil]).1 1 2 rfl rfl

/-- C2: `capture_upvalue` is supposed to reuse a registry only when it is
open over the *same* slot.  In the code the `matches!` pattern
`UpvalueRegistry::Open(index)` binds a fresh `index` instead of comparing to
the parameter, so the predicate accepts *every* open registry: with the open
list holding one registry `Open(0)`, `capture_upvalue(1)` returns that
registry (open over slot `0 ≠ 1`) and allocates nothing, while with an empty
open list it does allocate a fresh `Open(1)` as specified. -/
theorem C2_capture_returns_any_open :
    captureUpvalue ⟨[UpvalueRegistry.Open 0], [0]⟩ 1
      = (0, ⟨[UpvalueRegistry.Open 0], [0]⟩) ∧
    slotOf [UpvalueRegistry.Open 0] 0 = 0 ∧
    captureUpvalue ⟨[], []⟩ 1 = (0, ⟨[UpvalueRegistry.Open 1], [0]⟩) := by
  refine ⟨rfl, rfl, rfl⟩

/-- C3 (counterexample): the claim says `Return` closes every open upvalue at
or *above* the returning frame's base, including one open over slot `base`
itself.  On the code, with a single frame of base `0` and a registry
`Open(0)` (a captured callee/`this` slot), executing `Return` leaves that
registry open (and still on the open-upvalue list): `close_upvalues(base)`
only closes slots strictly greater than `base`. -/
theorem C3_counterexample :
    runReturn ⟨[Value.nil, Value.boolean true],
               [⟨⟨"script", 0, Chunk.new "", [], 0⟩, 0, 0, []⟩],
               [UpvalueRegistry.Open 0], [0]⟩
      = some (ReturnOutcome.halt (Value.boolean true)
          ⟨[], [], [UpvalueRegistry.Open 0], [0]⟩) := rfl

/-- C3 (amended): `Return` pops the return value, closes exactly the open
upvalues whose stack index is *strictly above* the returning frame's base
(one open over slot `base` itself — e.g. a captured `this` — is left open),
pops the frame, and — when frames remain — truncates the value stack to
`base` (removing the callee slot) and pushes the return value; with no frame
left it pops once more and halts with the result. -/
theorem C3_return_semantics (s : List Value) (r : Value) (fs : List CallFrame)
    (f : CallFrame) (heap : List UpvalueRegistry) (opens : List Nat)
    (hvalid : ∀ h ∈ opens, ∃ sl, heap[h]? = some (.Open sl) ∧ sl < s.length)
    (hnd : opens.Nodup)
    (hsorted : opens.Pairwise (fun a b => slotOf heap a ≤ slotOf heap b)) :
    ∃ heap',
      runReturn ⟨s ++ [r], fs ++ [f], heap, opens⟩ =
        some (if fs.isEmpty then
            ReturnOutcome.halt r
              ⟨s.dropLast, [], heap', opens.filter (fun h => slotOf heap h ≤ f.base)⟩
          else
            ReturnOutcome.running
              ⟨s.take f.base ++ [r], fs, heap',
               opens.filter (fun h => slotOf heap h ≤ f.base)⟩) ∧
      (∀ h ∈ opens, f.base < slotOf heap h →
          heap'[h]? = some (.Closed (s.getD (slotOf heap h) Value.nil))) ∧
      (∀ h' : Nat, (h' ∈ opens → slotOf heap h' ≤ f.base) →
          heap'[h']? = heap[h']?) := by
  obtain ⟨heap', heq, hclosed, hunch⟩ :=
    closeUpvalues_spec s heap opens f.base hvalid hnd hsorted
  refine ⟨heap', ?_, hclosed, hunch⟩
  simp only [runReturn, List.getLast?_concat, List.dropLast_concat]
  cases fs <;> simp [heq]

/-- Witness for C3_return_semantics: returning from a nested call truncates
to the base and pushes the result. -/
theorem C3_return_semantics_witness :
    (runReturn ⟨[Value.nil, Value.number 7] ++ [Value.number 9],
                [⟨⟨"script", 0, Chunk.new "", [], 0⟩, 0, 0, []⟩] ++
                  [⟨⟨"f", 0, Chunk.new "", [], 0⟩, 0, 1, []⟩],
                [], []⟩).isSome = true := by
  obtain ⟨heap', heq, -, -⟩ := C3_return_semantics
    [Value.nil, Value.number 7] (Value.number 9)
    [⟨⟨"script", 0, Chunk.new "", [], 0⟩, 0, 0, []⟩]
    ⟨⟨"f", 0, Chunk.new "", [], 0⟩, 0, 1, []⟩ [] []
    (by intro h hh; cases hh) (by exact List.nodup_nil) (by exact List.Pairwise.nil)
  rw [heq]
  rfl

/-- C4 (counterexample): the claim quantifies over *every* order of the
open-upvalue list; with the list out of order — front registry `Open(3)`,
back registry `Open(0)` — `close_upvalues(1)` stops at the first
at-or-below-threshold registry it meets at the back and terminates with the
registry of stack index `3 > 1` still open and still on the list, instead of
closing it. -/
theorem C4_counterexample :
    closeUpvalues [Value.nil, Value.nil, Value.nil, Value.nil]
        [UpvalueRegistry.Open 3, UpvalueRegistry.Open 0] [0, 1] 1
      = some ([UpvalueRegistry.Open 3, UpvalueRegistry.Open 0], [0, 1]) ∧
    slotOf [UpvalueRegistry.Open 3, UpvalueRegistry.Open 0] 0 = 3 := by
  refine ⟨rfl, rfl⟩

/-- C4 (amended): for every threshold `T` and every open-upvalue list whose
live, distinct registries have their open stack indices in nondecreasing
order towards the back (the order in which the VM pushes them),
`close_upvalues(T)` converts exactly the registries whose stack index exceeds
`T` from `Open(slot)` to `Closed(stack[slot])` and removes them from the
list (processing from the back, i.e. in decreasing slot order); no registry
with index above `T` is left open and none with index at most `T` is
touched. -/
theorem C4_close_upvalues_sorted (stack : List Value)
    (heap : List UpvalueRegistry) (opens : List Nat) (T : Nat)
    (hvalid : ∀ h ∈ opens, ∃ s, heap[h]? = some (.Open s) ∧ s < stack.length)
    (hnd : opens.Nodup)
    (hsorted : opens.Pairwise (fun a b => slotOf heap a ≤ slotOf heap b)) :
    ∃ heap',
      closeUpvalues stack heap opens T =
        some (heap', opens.filter (fun h => slotOf heap h ≤ T)) ∧
      (∀ h ∈ opens, T < slotOf heap h →
          heap'[h]? = some (.Closed (stack.getD (slotOf heap h) Value.nil))) ∧
      (∀ h' : Nat, (h' ∈ opens → slotOf heap h' ≤ T) → heap'[h']? = heap[h']?) :=
  closeUpvalues_spec stack heap opens T hvalid hnd hsorted

/-- Witness for C4_close_upvalues_sorted: a sorted two-registry list at
threshold 1 keeps exactly the slot-0 registry. -/
theorem C4_close_upvalues_sorted_witness :
    ([0, 1].filter
        (fun h => slotOf [UpvalueRegistry.Open 0, UpvalueRegistry.Open 2] h ≤ 1)) = [0] ∧
    (closeUpvalues [Value.nil, Value.nil, Value.nil]
        [UpvalueRegistry.Open 0, UpvalueRegistry.Open 2] [0, 1] 1).isSome = true := by
  constructor
  · rfl
  · obtain ⟨heap', heq, -, -⟩ := C4_close_upvalues_sorted
      [Value.nil, Value.nil, Value.nil]
      [UpvalueRegistry.Open 0, UpvalueRegistry.Open 2] [0, 1] 1
      (by intro h hh
          simp only [List.mem_cons, List.not_mem_nil, or_false] at hh
          rcases hh with rfl | rfl
          · exact ⟨0, rfl, by decide⟩
          · exact ⟨2, rfl, by decide⟩)
      (by decide)
      (by decide)
    simp [heq]

/-- C9: `add_upvalue` deduplicates on `(index, is_local)`: resolving the same
pair twice returns the same slot and leaves the table unchanged, and a table
without duplicate pairs stays without duplicate pairs. -/
theorem C9_upvalue_dedup (ups : List FunctionUpvalue) (index : Nat) (is_local : Bool) :
    (addUpvalue (addUpvalue ups index is_local).1 index is_local
      = addUpvalue ups index is_local) ∧
    ((ups.map upvalueKey).Nodup → ((addUpvalue ups index is_local).1.map upvalueKey).Nodup) := by
  constructor
  · unfold addUpvalue
    cases h : ups.findIdx? (fun u => u.index == index && u.is_local == is_local) with
    | some i => simp [h]
    | none =>
      simp only [h]
      rw [List.findIdx?_append, h]
      simp [List.findIdx?]
  · intro hnd
    unfold addUpvalue
    cases h : ups.findIdx? (fun u => u.index == index && u.is_local == is_local) with
    | some i => simpa using hnd
    | none =>
      have hall := List.findIdx?_eq_none_iff.mp h
      simp only [List.map_append, List.map_cons, List.map_nil]
      rw [List.nodup_append]
      refine ⟨hnd, by simp, ?_⟩
      intro k hk hk'
      simp only [List.mem_singleton] at hk'
      subst hk'
      obtain ⟨u, hu, hku⟩ := List.mem_map.mp hk
      have := hall u hu
      simp [upvalueKey] at hku
      simp [hku.1, hku.2] at this

/-- Witness for C9_upvalue_dedup at a concrete pair. -/
theorem C9_upvalue_dedup_witness :
    addUpvalue (addUpvalue [] 0 true).1 0 true = addUpvalue [] 0 true ∧
    ((addUpvalue [] 0 true).1.map upvalueKey).Nodup :=
  ⟨(C9_upvalue_dedup [] 0 true).1, (C9_upvalue_dedup [] 0 true).2 (by simp)⟩

/-- C10: `Print` on an instance whose class does not define `toString` pops
the value and writes nothing to stdout, while any non-instance value is
printed (one line, i.e. followed by a newline). -/
theorem C10_print_without_toString (classes : List ClassObj)
    (instances : List InstanceObj) (nested v : Value) (st : List Value) :
    (∀ i inst c, v = Value.instanceRef i → instances[i]? = some inst →
        classes[inst.cls]? = some c → containsKey c.methods "toString" = false →
        runPrint classes instances nested (st ++ [v]) = some ([], st)) ∧
    ((∀ i, v ≠ Value.instanceRef i) →
        runPrint classes instances nested (st ++ [v]) = some ([valueDisplay v], st)) := by
  constructor
  · rintro i inst c rfl h1 h2 h3
    simp [runPrint_append, printValue, h1, h2, h3]
  · intro h
    cases v with
    | instanceRef i => exact absurd rfl (h i)
    | _ => simp [runPrint_append, printValue]

/-- Witness for C10_print_without_toString: an instance of a method-less
class prints nothing; a boolean prints one line. -/
theorem C10_print_without_toString_witness :
    runPrint [⟨"A", []⟩] [⟨0, []⟩] Value.nil
        ([Value.number 5] ++ [Value.instanceRef 0]) = some ([], [Value.number 5]) ∧
    runPrint [⟨"A", []⟩] [⟨0, []⟩] Value.nil ([] ++ [Value.boolean true])
      = some ([valueDisplay (Value.boolean true)], []) := by
  constructor
  · exact (C10_print_without_toString [⟨"A", []⟩] [⟨0, []⟩] Value.nil
      (Value.instanceRef 0) [Value.number 5]).1 0 ⟨0, []⟩ ⟨"A", []⟩ rfl rfl rfl rfl
  · exact (C10_print_without_toString [⟨"A", []⟩] [⟨0, []⟩] Value.nil
      (Value.boolean true) []).2 (fun i h => Value.noConfusion h)

/-- C5 (counterexample): the claim says importing a module whose canonical
key is already in the VM's module table does not recompile the source and
does not run its top-level code again.  On the code, with `"m"` already in
the table, `ImportModule` still reads the file, still compiles the source,
and still interprets the module's top level (the table lookup in
`VM::compile` merely reuses the `Module` object). -/
theorem C5_counterexample :
    importModule (fun _ => some "") [some "m"] ["dir", "haupt.horst"] "m" "m"
      = some ([ImportEvent.readFile ["dir", "m"], ImportEvent.compileSource "m",
               ImportEvent.runTopLevel "m"], [some "m"], false) ∧
    ImportEvent.runTopLevel "m" ∈
      [ImportEvent.readFile ["dir", "m"], ImportEvent.compileSource "m",
       ImportEvent.runTopLevel "m"] ∧
    ImportEvent.compileSource "m" ∈
      [ImportEvent.readFile ["dir", "m"], ImportEvent.compileSource "m",
       ImportEvent.runTopLevel "m"] := by
  refine ⟨rfl, ?_, ?_⟩ <;> simp

/-- C5 (amended): executing `ImportModule` *always* reads the source,
compiles it, and runs its top-level code — whether or not the key is cached;
the only reuse for an already-present key is that `VM::compile` keeps the
existing `Module` object (its global table) instead of allocating a fresh
one, so importing the same module twice repeats its side effects. -/
theorem C5_import_always_reruns (fs : List String → Option String)
    (modules : List (Option String)) (importerPath : List String)
    (name key src : String)
    (hread : fs (importReadPath importerPath name) = some src) :
    importModule fs modules importerPath name key
      = some ([ImportEvent.readFile (importReadPath importerPath name),
               ImportEvent.compileSource key, ImportEvent.runTopLevel key],
              (vmCompileTable modules (some key)).1,
              (vmCompileTable modules (some key)).2) ∧
    (some key ∈ modules →
      (vmCompileTable modules (some key)).1 = modules ∧
      (vmCompileTable modules (some key)).2 = false) := by
  constructor
  · simp [importModule, hread]
  · intro hmem
    simp [vmCompileTable, hmem]

/-- Witness for C5_import_always_reruns at a concrete cached module. -/
theorem C5_import_always_reruns_witness :
    importModule (fun _ => some "let x = 1;") [some "m"] ["dir", "haupt.horst"] "m" "m"
      = some ([ImportEvent.readFile (importReadPath ["dir", "haupt.horst"] "m"),
               ImportEvent.compileSource "m", ImportEvent.runTopLevel "m"],
              (vmCompileTable [some "m"] (some "m")).1,
              (vmCompileTable [some "m"] (some "m")).2) :=
  (C5_import_always_reruns (fun _ => some "let x = 1;") [some "m"]
    ["dir", "haupt.horst"] "m" "m" "let x = 1;" rfl).1

/-- C6 (counterexample): the claim says the source is read from
`<key>.horst`, the extension being appended before the filesystem read.  On
the code, importing `"foo"` from `dir/haupt.horst` reads the file `dir/foo`:
`VM::import_module` passes `with_file_name`'s result to
`std::fs::read_to_string` with no extension appended (the `.horst`-appending
`read_module` helper in `module.rs` is dead code). -/
theorem C6_counterexample :
    importReadPath ["dir", "haupt.horst"] "foo" = ["dir", "foo"] ∧
    readModulePath "foo" = "foo.horst" ∧
    importReadPath ["dir", "haupt.horst"] "foo" ≠ ["dir", readModulePath "foo"] := by
  refine ⟨rfl, rfl, by decide⟩

/-- C6 (amended): the file `ImportModule` reads is named exactly by the given
module spec — no `.horst` extension is appended — resolved in the importing
module's directory (the importer's path with its file-name component
replaced by the spec). -/
theorem C6_read_path (dir : List String) (file name : String) :
    importReadPath (dir ++ [file]) name = dir ++ [name] := by
  simp [importReadPath, withFileName, List.dropLast_concat]

/-- C7 (counterexample): the claim says exit code 66 covers every run where
the source file cannot be read.  Invoking the driver as `horst ..` (argc 2,
a path with no file-name component, unreadable), the recommended-file-name
check `Path::new(file).file_name().unwrap()` panics *before* the read, so
the process aborts abnormally (Rust panic, status 101) instead of exiting
with 66. -/
theorem C7_counterexample :
    mainRun 2 none none none true = none ∧
    mainRun 2 none none none true ≠ some 66 := by
  refine ⟨rfl, ?_⟩
  have h0 : mainRun 2 none none none true = none := rfl
  rw [h0]
  exact Option.noConfusion

/-- C7 (amended): for a path with a file-name component the driver exits 64
on a wrong argument count, 66 when the source cannot be read, 65 when
compilation fails, 0 on success; and every runtime error goes through
`VM::error`, which prints one stack-trace line per frame (innermost frame
first) plus the error message and terminates the process with exit code 1. -/
theorem C7_exit_codes :
    (∀ (argc : Nat) fileName readResult compiled runOk, argc ≠ 2 →
        mainRun argc fileName readResult compiled runOk = some 64) ∧
    (∀ (fn : String) compiled runOk, mainRun 2 (some fn) none compiled runOk = some 66) ∧
    (∀ (fn src : String) runOk, mainRun 2 (some fn) (some src) none runOk = some 65) ∧
    (∀ (fn src : String) (p : Function), mainRun 2 (some fn) (some src) (some p) true = some 0) ∧
    (∀ (fn src : String) (p : Function), mainRun 2 (some fn) (some src) (some p) false = some 1) ∧
    (∀ modules base frames msg out, vmError modules base frames msg = some out →
        out.2 = 1 ∧ out.1.length = frames.length + 1) ∧
    (∀ modules base (f : CallFrame) fs msg m out, modules[f.function.module]? = some m →
        vmError modules base (fs ++ [f]) msg = some out →
        out.1.head? = some (frameTraceLine base m f)) := by
  refine ⟨?_, ?_, ?_, ?_, ?_, ?_, ?_⟩
  · intro argc fn rr c r h
    simp [mainRun, h]
  · intro fn c r
    simp [mainRun]
  · intro fn src r
    simp [mainRun]
  · intro fn src p
    simp [mainRun]
  · intro fn src p
    simp [mainRun]
  · intro modules base frames msg out hout
    unfold vmError at hout
    cases htr : traceLines modules base frames.reverse with
    | none => rw [htr] at hout; cases hout
    | some ls =>
      rw [htr] at hout
      have hlen : ls.length = frames.reverse.length :=
        traceLines_length modules base frames.reverse ls htr
      cases hout
      constructor
      · rfl
      · simp [hlen]
  · intro modules base f fs msg m out hm hout
    unfold vmError at hout
    rw [List.reverse_concat] at hout
    cases htr : traceLines modules base (f :: fs.reverse) with
    | none => rw [htr] at hout; cases hout
    | some ls =>
      rw [htr] at hout
      unfold traceLines at htr
      rw [hm] at htr
      cases hrest : traceLines modules base fs.reverse with
      | none => rw [hrest] at htr; cases htr
      | some ls' =>
        rw [hrest] at htr
        simp only [Option.map_some] at htr
        cases htr
        cases hout
        rfl

/-- Witness for C7_exit_codes at concrete driver environments. -/
theorem C7_exit_codes_witness :
    mainRun 3 none none none true = some 64 ∧
    mainRun 2 (some "haupt.horst") none none true = some 66 := by
  constructor
  · exact C7_exit_codes.1 3 none none none true (by decide)
  · exact C7_exit_codes.2.1 "haupt.horst" none true

/-- C8 (counterexample): the claim quantifies over *every* write sequence;
writing an instruction on line 2 and then one on line 1 does not push a new
`{line: 1, count: 1}` run — it hits
`unreachable!("Line number stack should not go backward")`, so no chunk (and
no `find_line` answer of `1`) exists. -/
theorem C8_counterexample :
    writeSeq (Chunk.new "") [(Instruction.Nil, 2), (Instruction.Nil, 1)] = none := rfl

/-- C8 (amended): for every write sequence whose line numbers are
nondecreasing (lines never go backward, the compiler's emit order), writing
on the same line as the last run increments that run's count, a strictly
larger line pushes a fresh `{line, count: 1}` run, all writes succeed, and
afterwards `find_line(i)` returns `line_i` for every instruction index
`i ≤ n`. -/
theorem C8_line_table_roundtrip (ops : List (Instruction × Nat))
    (hchain : List.Chain' (· ≤ ·) (ops.map Prod.snd)) :
    (∃ c, writeSeq (Chunk.new "") ops = some c ∧
      c.code = ops.map Prod.fst ∧
      lineExpansion c.lines = ops.map Prod.snd ∧
      (∀ i, i < ops.length → (c.findLine i).1 = (ops.map Prod.snd).getD i 0)) ∧
    (∀ (c : Chunk) (op : Instruction) (l : Nat) (r : LineRecord),
        c.lines.getLast? = some r → r.line = l →
        c.write op l = some ({ c with code := c.code ++ [op], lines := c.lines.dropLast ++ [⟨l, r.count + 1⟩] }, c.code.length)) ∧
    (∀ (c : Chunk) (op : Instruction) (l : Nat) (r : LineRecord),
        c.lines.getLast? = some r → r.line < l →
        c.write op l = some ({ c with code := c.code ++ [op], lines := c.lines ++ [⟨l, 1⟩] }, c.code.length)) := by
  refine ⟨?_, ?_, ?_⟩
  · obtain ⟨c, hws, hcode, hexp⟩ := writeSeq_spec ops (Chunk.new "") hchain
      (by intro r hr l hl; cases hr)
    refine ⟨c, hws, by simpa [Chunk.new] using hcode,
      by simpa [Chunk.new, lineExpansion] using hexp, ?_⟩
    intro i hi
    have hlen : (lineExpansion c.lines).length = ops.length := by
      rw [hexp]
      simp [Chunk.new, lineExpansion]
    have := findLineGo_spec i c.lines 0 1 true (Nat.zero_le i) (by omega)
    rw [Chunk.findLine, this, Nat.sub_zero]
    rw [hexp]
    simp [Chunk.new, lineExpansion, List.getD_eq_getElem?_getD, List.getElem?_map]
  · intro c op l r hlast hline
    subst hline
    simp [Chunk.write, hlast]
  · intro c op l r hlast hline
    simp [Chunk.write, hlast, if_pos hline]

/-- Witness for C8_line_table_roundtrip on a concrete nondecreasing write
sequence. -/
theorem C8_line_table_roundtrip_witness :
    (writeSeq (Chunk.new "")
      [(Instruction.Nil, 1), (Instruction.Pop, 1), (Instruction.Nil, 2)]).isSome = true := by
  obtain ⟨⟨c, hc, -, -, -⟩, -, -⟩ := C8_line_table_roundtrip
    [(Instruction.Nil, 1), (Instruction.Pop, 1), (Instruction.Nil, 2)]
    (by simp [List.chain'_cons])
  simp [hc]

end Horst
